import Mathlib

/-!
Verification of the ITMO curriculum Telegram bot (telegram_bot.py, bot_config.py)
against its natural-language specification.  The Python sources are shallowly
embedded: pure string manipulation becomes functions on lists of characters,
transport calls (requests.post / requests.get) become oracles describing the
outcome of each call, and exceptions become explicit control flow.
-/

namespace ItmoBot

/-! ## bot_config.py -/

/-- Embedding of the secrets.py module (bot_config.py lines 11-12): when the
module is importable it provides the three credential strings. -/
structure SecretsModule where
  telegramBotToken : String
  yandexFolderId : String
  yandexAuthToken : String

/-- bot_config.py lines 11-17: module-level TELEGRAM_BOT_TOKEN, falling back to
the placeholder string when secrets.py cannot be imported. -/
def TELEGRAM_BOT_TOKEN (secrets : Option SecretsModule) : String :=
  match secrets with
  | some s => s.telegramBotToken
  | none => "YOUR_TELEGRAM_BOT_TOKEN"

/-- bot_config.py line 16: module-level YANDEX_FOLDER_ID fallback chain. -/
def YANDEX_FOLDER_ID (secrets : Option SecretsModule) : String :=
  match secrets with
  | some s => s.yandexFolderId
  | none => "YOUR_YANDEX_FOLDER_ID"

/-- bot_config.py line 17: module-level YANDEX_AUTH_TOKEN fallback chain. -/
def YANDEX_AUTH_TOKEN (secrets : Option SecretsModule) : String :=
  match secrets with
  | some s => s.yandexAuthToken
  | none => "YOUR_YANDEX_AUTH_TOKEN"

/-- bot_config.py line 21: TELEGRAM_CONFIG['token'] =
os.getenv('TELEGRAM_BOT_TOKEN', TELEGRAM_BOT_TOKEN).  The environment is a
partial map from variable names to strings. -/
def telegramConfigToken (secrets : Option SecretsModule) (env : String → Option String) : String :=
  (env "TELEGRAM_BOT_TOKEN").getD (TELEGRAM_BOT_TOKEN secrets)

/-- bot_config.py line 30: YANDEX_CONFIG['folder_id']. -/
def yandexConfigFolderId (secrets : Option SecretsModule) (env : String → Option String) : String :=
  (env "YANDEX_FOLDER_ID").getD (YANDEX_FOLDER_ID secrets)

/-- bot_config.py line 31: YANDEX_CONFIG['auth_token']. -/
def yandexConfigAuthToken (secrets : Option SecretsModule) (env : String → Option String) : String :=
  (env "YANDEX_AUTH_TOKEN").getD (YANDEX_AUTH_TOKEN secrets)

/-- bot_config.py line 24: TELEGRAM_CONFIG['max_message_length'] = 4000. -/
def maxMessageLength : Nat := 4000

/-- bot_config.py lines 120-138: validate_config().  Returns the 'valid' flag
together with the list of reported issues.  Python's falsiness test
`not TELEGRAM_CONFIG['token']` is truth of `token = ""`. -/
def validate_config (token folderId authToken : String) : Bool × List String :=
  let i1 : List String :=
    if token = "" || token = "YOUR_TELEGRAM_TOKEN" then
      ["Telegram bot token not configured"] else []
  let i2 : List String :=
    if folderId = "" || folderId = "YOUR_FOLDER_ID" then
      ["YandexGPT folder_id not configured"] else []
  let i3 : List String :=
    if authToken = "" || authToken = "YOUR_AUTH_TOKEN" then
      ["YandexGPT auth_token not configured"] else []
  let issues := i1 ++ i2 ++ i3
  (issues.isEmpty, issues)

/-- telegram_bot.py lines 37-44: ITMOCurriculumBot.__init__ raises ValueError
exactly when validate_config reports the configuration invalid.  Returns true
when construction succeeds. -/
def botInitSucceeds (secrets : Option SecretsModule) (env : String → Option String) : Bool :=
  (validate_config (telegramConfigToken secrets env)
    (yandexConfigFolderId secrets env) (yandexConfigAuthToken secrets env)).1

/-- bot_config.py lines 115-116: the two fixed user-facing fallback strings. -/
def SYSTEM_PROMPTS_error : List Char :=
  "Извините, произошла ошибка при обработке вашего вопроса. Попробуйте позже.".data

/-- bot_config.py line 116: SYSTEM_PROMPTS['no_response']. -/
def SYSTEM_PROMPTS_no_response : List Char :=
  "Извините, не удалось получить ответ от модели. Попробуйте позже.".data

/-! ## Incoming messages, process_message and the run loop -/

/-- One of Python's whitespace characters removed by str.strip(). -/
def pyWS (c : Char) : Bool :=
  c = ' ' || c = '\t' || c = '\n' || c = '\r' || c = '\x0b' || c = '\x0c'

/-- Python str.strip(): drop whitespace from both ends. -/
def pyStrip (l : List Char) : List Char :=
  ((l.dropWhile pyWS).reverse.dropWhile pyWS).reverse

/-- Python str.startswith on character lists. -/
def startsWithL : List Char → List Char → Bool
  | [], _ => true
  | _ :: _, [] => false
  | p :: ps, c :: cs => p == c && startsWithL ps cs

/-- A Telegram message object as used by the bot: the presence of the
'chat', 'from' and 'text' keys is explicit (message['chat']['id'] raises
KeyError when 'chat' is absent; message.get('text', '') defaults to ""). -/
structure TMessage where
  chat : Option Int
  fromUser : Option Int
  text : Option (List Char)

/-- A Telegram update: update_id plus the optional 'message' payload. -/
structure TUpdate where
  update_id : Nat
  message : Option TMessage

/-- The sentinel string process_message returns after a /start command. -/
def sentinelStart : List Char := "start_command_processed".data

/-- The sentinel string process_message returns after a /help command. -/
def sentinelHelp : List Char := "help_command_processed".data

/-- Observable actions of one iteration of the run loop.  sentWelcome and
sentHelp are the send_telegram_message calls issued inside process_message
(their transport result is ignored by the code); handled records an
invocation of handle_question with the given chat id and question. -/
inductive RAct
  | sentWelcome (chat : Int)
  | sentHelp (chat : Int)
  | handled (chat : Int) (question : List Char)
deriving DecidableEq

/-- telegram_bot.py lines 230-256: process_message.  Its try/except catches
every exception inside (missing 'chat' or 'from' raise KeyError, caught here
and mapped to None).  Returns the value handed back to the run loop plus the
transport sends it issued. -/
def processMessage (m : TMessage) : Option (List Char) × List RAct :=
  match m.chat, m.fromUser with
  | some cid, some _ =>
    let text := pyStrip (m.text.getD [])
    if text.isEmpty then (none, [])
    else if startsWithL "/start".data text then (some sentinelStart, [.sentWelcome cid])
    else if startsWithL "/help".data text then (some sentinelHelp, [.sentHelp cid])
    else (some text, [])
  | _, _ => (none, [])

/-- telegram_bot.py lines 360-370: the body of the for loop over one batch of
updates.  For each update carrying a 'message', the loop first evaluates
message['chat']['id'] (line 363) with no per-update try: a message without
'chat' raises KeyError there, which is only caught by the while-level except,
aborting the remaining updates of the batch (flag true).  Otherwise
process_message runs, and handle_question is invoked when the returned
question is truthy and not one of the two sentinels. -/
def runBatch : List TUpdate → List RAct × Bool
  | [] => ([], false)
  | u :: rest =>
    match u.message with
    | none => runBatch rest
    | some m =>
      match m.chat with
      | none => ([], true)
      | some cid =>
        let pr := processMessage m
        let dispatch : List RAct :=
          match pr.1 with
          | some q =>
            if !q.isEmpty && !(q == sentinelStart) && !(q == sentinelHelp) then
              [.handled cid q]
            else []
          | none => []
        let r := runBatch rest
        (pr.2 ++ dispatch ++ r.1, r.2)

/-- The JSON body of a getUpdates response: the 'ok' flag and the 'result'
list of updates. -/
structure PollData where
  ok : Bool
  result : List TUpdate

/-- telegram_bot.py lines 203-228: get_telegram_updates.  The transport
either raises (Except.error, caught: offset unchanged, empty batch) or
returns a body; the batch is returned and the offset advanced to
last update_id + 1 only when data['ok'] holds and the result list is
nonempty (both the `data.get('ok') and data.get('result')` truthiness test
and the inner `if updates:`). -/
def getTelegramUpdates (offset : Nat) (resp : Except Unit PollData) :
    Nat × List TUpdate :=
  match resp with
  | .error _ => (offset, [])
  | .ok d =>
    match d.result.getLast? with
    | none => (offset, [])
    | some lastU => if d.ok then (lastU.update_id + 1, d.result) else (offset, [])

/-- One iteration of run (telegram_bot.py lines 355-380): poll, then process
the batch.  The cursor after the iteration is exactly the cursor computed by
the poll; batch processing never touches it. -/
def runIteration (offset : Nat) (resp : Except Unit PollData) :
    Nat × (List RAct × Bool) :=
  let p := getTelegramUpdates offset resp
  (p.1, runBatch p.2)

/-- The maximum update_id of a batch (0 for the empty batch). -/
def maxUid (l : List TUpdate) : Nat :=
  l.foldl (fun a u => Nat.max a u.update_id) 0

theorem foldlMaxUid_le (l : List TUpdate) (init M : Nat) (h1 : init ≤ M)
    (h2 : ∀ u ∈ l, u.update_id ≤ M) :
    l.foldl (fun a u => Nat.max a u.update_id) init ≤ M := by
  induction l generalizing init with
  | nil => exact h1
  | cons x xs ih =>
    exact ih (Nat.max init x.update_id)
      (Nat.max_le.mpr ⟨h1, h2 x (List.mem_cons_self x xs)⟩)
      (fun u hu => h2 u (List.mem_cons_of_mem x hu))

theorem init_le_foldlMaxUid (l : List TUpdate) :
    ∀ init : Nat, init ≤ l.foldl (fun a u => Nat.max a u.update_id) init := by
  induction l with
  | nil => intro init; exact Nat.le_refl init
  | cons y ys ihy =>
    intro init
    exact Nat.le_trans (Nat.le_max_left init y.update_id) (ihy _)

theorem le_foldlMaxUid (l : List TUpdate) {u : TUpdate} (h : u ∈ l) :
    ∀ init : Nat, u.update_id ≤ l.foldl (fun a u => Nat.max a u.update_id) init := by
  induction l with
  | nil => cases h
  | cons x xs ih =>
    intro init
    rcases List.mem_cons.mp h with h2 | h2
    · subst h2
      exact Nat.le_trans (Nat.le_max_right init u.update_id)
        (init_le_foldlMaxUid xs _)
    · exact ih h2 _

theorem getLast?_mem {α : Type} {l : List α} {a : α} (h : l.getLast? = some a) :
    a ∈ l := by
  induction l with
  | nil => cases h
  | cons x xs ih =>
    cases xs with
    | nil =>
      cases h
      exact List.mem_singleton.mpr rfl
    | cons y ys =>
      rw [List.getLast?_cons_cons] at h
      exact List.mem_cons_of_mem x (ih h)

theorem maxUid_eq_last (l : List TUpdate) (lastU : TUpdate)
    (hlast : l.getLast? = some lastU)
    (hmax : ∀ u ∈ l, u.update_id ≤ lastU.update_id) :
    maxUid l = lastU.update_id :=
  Nat.le_antisymm
    (foldlMaxUid_le l 0 lastU.update_id (Nat.zero_le _) hmax)
    (le_foldlMaxUid l (getLast?_mem hlast) 0)

/-- C1: for a non-empty batch returned by poll (under the Telegram API
guarantee that the batch is delivered in update_id order, phrased as: every
update_id is bounded by the last one), the cursor after the full iteration is
max update_id + 1; the cursor never depends on how batch processing went
(it is fixed by the poll, before any handler runs); and whenever poll yields
an empty batch the cursor is unchanged. -/
theorem C1_cursor_advances (offset : Nat) (resp : Except Unit PollData)
    (d : PollData) (lastU : TUpdate)
    (hresp : resp = .ok d) (hok : d.ok = true)
    (hlast : d.result.getLast? = some lastU)
    (hmax : ∀ u ∈ d.result, u.update_id ≤ lastU.update_id) :
    (runIteration offset resp).1 = maxUid d.result + 1 ∧
    (∀ off2 r2, (runIteration off2 r2).1 = (getTelegramUpdates off2 r2).1) ∧
    (∀ off2 r2, (getTelegramUpdates off2 r2).2 = [] →
      (runIteration off2 r2).1 = off2) := by
  refine ⟨?_, fun off2 r2 => rfl, ?_⟩
  · subst hresp
    simp only [runIteration, getTelegramUpdates, hlast, hok, if_true]
    rw [maxUid_eq_last d.result lastU hlast hmax]
  · intro off2 r2 h
    match r2 with
    | .error _ => rfl
    | .ok d2 =>
      simp only [runIteration, getTelegramUpdates] at *
      match h2 : d2.result.getLast? with
      | none => simp [h2]
      | some lu =>
        simp only [h2] at h ⊢
        match h3 : d2.ok with
        | false => simp
        | true =>
          rw [h3] at h
          simp at h
          rw [h] at h2
          cases h2

def c1PollBatch : List TUpdate :=
  [⟨5, some ⟨none, some 10, some "hi".data⟩⟩,
   ⟨9, some ⟨some 5, some 10, some "Какие дисциплины есть?".data⟩⟩]

theorem C1_witness :
    (runIteration 3 (.ok ⟨true, c1PollBatch⟩)).1 = maxUid c1PollBatch + 1 :=
  (C1_cursor_advances 3 (.ok ⟨true, c1PollBatch⟩) ⟨true, c1PollBatch⟩
    ⟨9, some ⟨some 5, some 10, some "Какие дисциплины есть?".data⟩⟩
    rfl rfl rfl (by decide)).1

def c3BadUpdate : TUpdate := ⟨1, some ⟨none, some 10, some "hi".data⟩⟩

def c3GoodUpdate : TUpdate :=
  ⟨2, some ⟨some 5, some 10, some "Какие дисциплины есть?".data⟩⟩

/-- C3 fails as stated: in the batch [c3BadUpdate, c3GoodUpdate] the first
update's message lacks 'chat', so message['chat']['id'] at run line 363
raises outside any per-update handler; the batch is aborted and the second
(perfectly valid) update is never processed, although on its own it would
have been handled. -/
theorem C3_counterexample :
    runBatch [c3BadUpdate, c3GoodUpdate] = ([], true) ∧
    runBatch [c3GoodUpdate] =
      ([RAct.handled 5 "Какие дисциплины есть?".data], false) := by
  constructor <;> decide

/-- C3 amended: an exception inside process_message (missing 'from', any
malformed field) or inside handle_question is caught at that update's
boundary, and each update of the batch is processed independently of the
rest - provided every update's message carries 'chat', since the run loop
itself dereferences message['chat']['id'] with no per-update protection. -/
theorem C3_update_isolation (uid : Nat) (msg : Option TMessage) (rest : List TUpdate)
    (h : ∀ m, msg = some m → m.chat.isSome = true) :
    (runBatch (⟨uid, msg⟩ :: rest)).1
      = (runBatch [⟨uid, msg⟩]).1 ++ (runBatch rest).1 ∧
    (runBatch (⟨uid, msg⟩ :: rest)).2 = (runBatch rest).2 := by
  match msg with
  | none => simp [runBatch]
  | some ⟨chat, fu, tx⟩ =>
    match hc : chat with
    | none =>
      have h2 := h ⟨chat, fu, tx⟩ (by rw [hc])
      rw [hc] at h2
      cases h2
    | some cid =>
      constructor <;> simp [runBatch]

theorem C3_witness :
    (runBatch [c3GoodUpdate, c3BadUpdate, c3GoodUpdate]).1 =
      (runBatch [c3GoodUpdate]).1 ++ (runBatch [c3BadUpdate, c3GoodUpdate]).1 :=
  (C3_update_isolation 2 (some ⟨some 5, some 10, "Какие дисциплины есть?".data⟩)
    [c3BadUpdate, c3GoodUpdate]
    (by
      intro m hm
      cases hm
      rfl)).1

/-- C10: a message whose stripped text is literally one of the two command
sentinels is returned by process_message as if it were a question, but the
run loop's sentinel comparison skips it: no handle_question invocation (so
the Completion Client is never reached), no send of any kind - the user gets
no reply at all. -/
theorem C10_sentinel_no_reply (uid2 : Nat) (cid uidFrom : Int) (txt : List Char)
    (h : pyStrip txt = sentinelStart ∨ pyStrip txt = sentinelHelp) :
    runBatch [⟨uid2, some ⟨some cid, some uidFrom, some txt⟩⟩] = ([], false) := by
  rcases h with h | h <;>
    simp [runBatch, processMessage, h, sentinelStart, sentinelHelp, startsWithL]

theorem C10_witness :
    pyStrip "  start_command_processed\n".data = sentinelStart ∧
    runBatch [⟨7, some ⟨some 44, some 10, some "  start_command_processed\n".data⟩⟩]
      = ([], false) :=
  ⟨by decide,
   C10_sentinel_no_reply 7 44 10 "  start_command_processed\n".data
     (Or.inl (by decide))⟩

/-! ## send_telegram_message (telegram_bot.py lines 160-201) -/

/-- Outcome of one requests.post call as seen by send_telegram_message: the
response JSON has ok=true, ok missing/false, or the call raised. -/
inductive COutcome
  | ok
  | notOk
  | exn
deriving DecidableEq

/-- The continuation marker prepended to every slice after the first
(telegram_bot.py line 170): the f-string with the 1-based slice number and
the total slice count. -/
def contMarker (i n : Nat) : List Char :=
  "(продолжение ".data ++ (Nat.repr i).data ++ "/".data ++ (Nat.repr n).data
    ++ ")\n\n".data

/-- telegram_bot.py line 167: parts = [text[i:i+max] for i in
range(0, len(text), max)], written with explicit fuel so it evaluates;
the fuel is always instantiated with the text length. -/
def chunksGo (maxLen : Nat) : Nat → List Char → List (List Char)
  | 0, _ => []
  | _, [] => []
  | Nat.succ fuel, text => text.take maxLen :: chunksGo maxLen fuel (text.drop maxLen)

/-- The fixed-size consecutive slices of a message text. -/
def chunks (text : List Char) : List (List Char) :=
  chunksGo maxMessageLength text.length text

/-- The body actually posted for slice i of total slices (0-based i): slices
after the first get the continuation marker, numbered i+1. -/
def chunkPayload (total i : Nat) (part : List Char) : List Char :=
  if 0 < i then contMarker (i + 1) total ++ part else part

/-- telegram_bot.py lines 168-183: the for loop over the slices.  Each slice
is posted in order; a response without ok or a raised exception returns
False at once, skipping the remaining slices.  Returns the success flag and
the list of payloads actually posted. -/
def sendLoop (oracle : Nat → COutcome) (total : Nat) :
    Nat → List (List Char) → Bool × List (List Char)
  | _, [] => (true, [])
  | i, part :: rest =>
    let payload := chunkPayload total i part
    match oracle i with
    | .ok =>
      let r := sendLoop oracle total (i + 1) rest
      (r.1, payload :: r.2)
    | _ => (false, [payload])

/-- telegram_bot.py lines 160-201: send_telegram_message.  Short texts are
posted in a single call whose payload is the text itself; long texts go
through the slice loop.  Returns the success flag and the posted payloads. -/
def send_telegram_message (oracle : Nat → COutcome) (chatId : Int)
    (text : List Char) : Bool × List (List Char) :=
  if maxMessageLength < text.length then
    sendLoop oracle (chunks text).length 0 (chunks text)
  else
    match oracle 0 with
    | .ok => (true, [text])
    | _ => (false, [text])

/-- The always-successful transport. -/
def allOkOracle : Nat → COutcome := fun _ => COutcome.ok

theorem sendLoop_all_ok (oracle : Nat → COutcome) (total : Nat) :
    ∀ (ps : List (List Char)) (i : Nat),
      (∀ j, j < ps.length → oracle (i + j) = .ok) →
      sendLoop oracle total i ps =
        (true, (ps.enumFrom i).map (fun q => chunkPayload total q.1 q.2)) := by
  intro ps
  induction ps with
  | nil => intro i _; rfl
  | cons part rest ih =>
    intro i h
    have h0 : oracle i = .ok := by
      have := h 0 (by simp)
      simpa using this
    have hrest : ∀ j, j < rest.length → oracle (i + 1 + j) = .ok := by
      intro j hj
      have := h (j + 1) (by simp; omega)
      rwa [show i + (j + 1) = i + 1 + j by omega] at this
    simp only [sendLoop, h0, ih (i + 1) hrest, List.enumFrom, List.map]

theorem sendLoop_fail (oracle : Nat → COutcome) (total : Nat) :
    ∀ (ps : List (List Char)) (i k : Nat),
      k < ps.length →
      (∀ j, j < k → oracle (i + j) = .ok) →
      oracle (i + k) ≠ .ok →
      sendLoop oracle total i ps =
        (false, ((ps.take (k + 1)).enumFrom i).map
          (fun q => chunkPayload total q.1 q.2)) := by
  intro ps
  induction ps with
  | nil => intro i k hk; simp at hk
  | cons part rest ih =>
    intro i k hk hpre hfail
    match k with
    | 0 =>
      rw [Nat.add_zero] at hfail
      match hc : oracle i with
      | .ok => exact absurd hc hfail
      | .notOk => simp [sendLoop, hc, List.enumFrom]
      | .exn => simp [sendLoop, hc, List.enumFrom]
    | k2 + 1 =>
      have h0 : oracle i = .ok := by
        have := hpre 0 (by omega)
        simpa using this
      have hpre2 : ∀ j, j < k2 → oracle (i + 1 + j) = .ok := by
        intro j hj
        have := hpre (j + 1) (by omega)
        rwa [show i + (j + 1) = i + 1 + j by omega] at this
      have hfail2 : oracle (i + 1 + k2) ≠ .ok := by
        rwa [show i + (k2 + 1) = i + 1 + k2 by omega] at hfail
      have hk2 : k2 < rest.length := by simp at hk; omega
      simp only [sendLoop, h0, ih (i + 1) k2 hk2 hpre2 hfail2,
        List.take, List.enumFrom, List.map]

theorem chunksGo_nil (m : Nat) : ∀ fuel, chunksGo m fuel [] = [] := by
  intro fuel
  cases fuel <;> rfl

theorem chunksGo_len (m : Nat) (hm : 0 < m) :
    ∀ (fuel : Nat) (text : List Char), text.length ≤ fuel →
      (chunksGo m fuel text).length = (text.length + m - 1) / m := by
  intro fuel
  induction fuel with
  | zero =>
    intro text ht
    have h0 : text = [] := List.eq_nil_of_length_eq_zero (Nat.le_zero.mp ht)
    subst h0
    have hd : (List.length ([] : List Char) + m - 1) / m = 0 :=
      Nat.div_eq_of_lt (by simp; omega)
    rw [chunksGo_nil, hd]
    rfl
  | succ fuel ih =>
    intro text ht
    match text with
    | [] =>
      have hd : (List.length ([] : List Char) + m - 1) / m = 0 :=
        Nat.div_eq_of_lt (by simp; omega)
      rw [chunksGo_nil, hd]
      rfl
    | c :: rest =>
      have hstep : chunksGo m (fuel + 1) (c :: rest)
          = (c :: rest).take m :: chunksGo m fuel ((c :: rest).drop m) := rfl
      have hdl : ((c :: rest).drop m).length = rest.length + 1 - m := by
        simp
      have hfuel : ((c :: rest).drop m).length ≤ fuel := by
        rw [hdl]
        simp at ht
        omega
      rw [hstep, List.length_cons, ih _ hfuel, hdl, List.length_cons]
      by_cases hc : rest.length + 1 ≤ m
      · have e1 : rest.length + 1 - m + m - 1 = m - 1 := by omega
        have e2 : (m - 1) / m = 0 := Nat.div_eq_of_lt (by omega)
        have e3 : (rest.length + 1 + m - 1) / m = 1 :=
          Nat.div_eq_of_lt_le (by omega) (by omega)
        rw [e1, e2, e3]
      · have e1 : rest.length + 1 - m + m - 1 = rest.length := by omega
        have e2 : rest.length + 1 + m - 1 = rest.length + m := by omega
        rw [e1, e2, Nat.add_div_right _ hm]

theorem take_replicate_le (a : Char) :
    ∀ (n m : Nat), n ≤ m → (List.replicate m a).take n = List.replicate n a := by
  intro n
  induction n with
  | zero => intro m _; simp
  | succ n ih =>
    intro m h
    match m with
    | 0 => omega
    | m2 + 1 =>
      simp only [List.replicate_succ, List.take_succ_cons, ih m2 (by omega)]

theorem drop_replicate_list (a : Char) :
    ∀ (n m : Nat), (List.replicate m a).drop n = List.replicate (m - n) a := by
  intro n
  induction n with
  | zero => intro m; simp
  | succ n ih =>
    intro m
    match m with
    | 0 => simp
    | m2 + 1 =>
      simp only [List.replicate_succ, List.drop_succ_cons, ih m2]
      rw [show m2 + 1 - (n + 1) = m2 - n by omega]

theorem chunks_replicate_4001 :
    chunks (List.replicate 4001 'a') = [List.replicate 4000 'a', ['a']] := by
  have h1 : chunks (List.replicate 4001 'a')
      = chunksGo 4000 4001 (List.replicate 4001 'a') := by
    simp only [chunks, maxMessageLength, List.length_replicate]
  rw [h1]
  rw [show (4001 : Nat) = 4000 + 1 from rfl, List.replicate_succ]
  show List.take 4000 ('a' :: List.replicate 4000 'a')
      :: chunksGo 4000 4000 (List.drop 4000 ('a' :: List.replicate 4000 'a')) = _
  rw [← List.replicate_succ, take_replicate_le 'a' 4000 (4000 + 1) (by omega),
    drop_replicate_list]
  rw [show 4000 + 1 - 4000 = 1 by omega]
  show _ :: chunksGo 4000 (3999 + 1) ['a'] = _
  rw [show chunksGo 4000 (3999 + 1) ['a']
      = List.take 4000 ['a'] :: chunksGo 4000 3999 (List.drop 4000 ['a']) from rfl]
  rw [show List.take 4000 ['a'] = ['a'] from by decide,
    show List.drop 4000 ['a'] = [] from by decide, chunksGo_nil]

/-- C4 fails as stated only in the marker text: the continuation marker is
the Russian literal "(продолжение i/N)\n\n", not "(continuation i/N)\n\n".
On a 4001-character text the second posted payload does not begin with
"(continuation". -/
theorem C4_counterexample :
    (send_telegram_message allOkOracle 0 (List.replicate 4001 'a')).2
      = [List.replicate 4000 'a', contMarker 2 2 ++ ['a']] ∧
    startsWithL "(continuation".data (contMarker 2 2 ++ ['a']) = false := by
  constructor
  · have hlen : maxMessageLength < (List.replicate 4001 'a').length := by
      rw [List.length_replicate]
      decide
    rw [send_telegram_message, if_pos hlen]
    rw [sendLoop_all_ok allOkOracle _ _ 0 (fun j _ => rfl)]
    rw [chunks_replicate_4001]
    rfl
  · decide

/-- C4 amended: a text of length at most 4000 is posted in exactly one call
whose payload is the text itself (whatever the transport outcome); a longer
text, when every call succeeds, is posted as ceil(L/4000) calls in slice
order, where the payload of slice i (0-based) for i > 0 is the literal
marker "(продолжение (i+1)/N)\n\n" (1-based slice number) followed by the
slice. -/
theorem C4_chunked_send (oracle : Nat → COutcome) (chatId : Int)
    (text : List Char) :
    (text.length ≤ maxMessageLength →
      (send_telegram_message oracle chatId text).2 = [text]) ∧
    (maxMessageLength < text.length → (∀ i, oracle i = .ok) →
      send_telegram_message oracle chatId text =
        (true, ((chunks text).enumFrom 0).map
          (fun q => chunkPayload (chunks text).length q.1 q.2)) ∧
      (chunks text).length = (text.length + (maxMessageLength - 1)) / maxMessageLength) := by
  constructor
  · intro hle
    rw [send_telegram_message, if_neg (by omega)]
    match oracle 0 with
    | .ok => rfl
    | .notOk => rfl
    | .exn => rfl
  · intro hgt hok
    constructor
    · rw [send_telegram_message, if_pos hgt]
      exact sendLoop_all_ok oracle _ _ 0 (fun j _ => hok _)
    · have := chunksGo_len maxMessageLength (by decide) text.length text (Nat.le_refl _)
      rw [chunks, this]
      rfl

theorem C4_witness :
    ((List.replicate 5 'a').length ≤ maxMessageLength ∧
      (send_telegram_message allOkOracle 0 (List.replicate 5 'a')).2
        = [List.replicate 5 'a']) ∧
    (maxMessageLength < (List.replicate 4001 'a').length ∧
      send_telegram_message allOkOracle 0 (List.replicate 4001 'a') =
        (true, ((chunks (List.replicate 4001 'a')).enumFrom 0).map
          (fun q => chunkPayload (chunks (List.replicate 4001 'a')).length q.1 q.2))) :=
  ⟨⟨by rw [List.length_replicate]; decide,
    (C4_chunked_send allOkOracle 0 (List.replicate 5 'a')).1
      (by rw [List.length_replicate]; decide)⟩,
   ⟨by rw [List.length_replicate]; decide,
    ((C4_chunked_send allOkOracle 0 (List.replicate 4001 'a')).2
      (by rw [List.length_replicate]; decide) (fun i => rfl)).1⟩⟩

/-- C6: during a chunked send, the first non-ok or raising call aborts the
loop: exactly the slices up to and including the failing one are posted (in
order, with their markers), the function reports failure, and the embedding
of send issues no call other than these posts (in particular nothing that
would retract an already posted slice). -/
theorem C6_abort_on_first_failure (oracle : Nat → COutcome) (chatId : Int)
    (text : List Char) (k : Nat)
    (hlen : maxMessageLength < text.length)
    (hk : k < (chunks text).length)
    (hfail : oracle k ≠ .ok)
    (hpre : ∀ j, j < k → oracle j = .ok) :
    send_telegram_message oracle chatId text =
      (false, (((chunks text).take (k + 1)).enumFrom 0).map
        (fun q => chunkPayload (chunks text).length q.1 q.2)) := by
  rw [send_telegram_message, if_pos hlen]
  exact sendLoop_fail oracle _ _ 0 k hk
    (fun j hj => by rw [Nat.zero_add]; exact hpre j hj)
    (by rw [Nat.zero_add]; exact hfail)

def c6ExnOracle : Nat → COutcome := fun _ => COutcome.exn

theorem C6_witness :
    maxMessageLength < (List.replicate 4001 'a').length ∧
    0 < (chunks (List.replicate 4001 'a')).length ∧
    send_telegram_message c6ExnOracle 0 (List.replicate 4001 'a') =
      (false, (((chunks (List.replicate 4001 'a')).take 1).enumFrom 0).map
        (fun q => chunkPayload (chunks (List.replicate 4001 'a')).length q.1 q.2)) :=
  ⟨by rw [List.length_replicate]; decide,
   by rw [chunks_replicate_4001]; decide,
   C6_abort_on_first_failure c6ExnOracle 0 (List.replicate 4001 'a') 0
     (by rw [List.length_replicate]; decide)
     (by rw [chunks_replicate_4001]; decide)
     (by decide)
     (fun j hj => absurd hj (Nat.not_lt_zero j))⟩

/-! ## fix_telegram_formatting (telegram_bot.py lines 141-158)

The four re.sub passes are modelled as left-to-right scans with leftmost,
lazy matching, exactly as Python's re module applies them:
pass 1  \*\*(.*?)\*\*            -> <b>...</b>   (dot excludes newline)
pass 2  (?<!\*)\*([^*]+?)\*(?!\*) -> <i>...</i>
pass 3  three-backtick (.*?) three-backtick, DOTALL -> <code>...</code>
pass 4  backtick, then a lazy nonempty run of non-backticks, then a
        closing backtick -> <code>...</code> -/

/-- The backtick character (written by code to keep it out of patterns). -/
def backtick : Char := Char.ofNat 96

/-- Does the text start with an asterisk. -/
def headIsStar : List Char → Bool
  | [] => false
  | c :: _ => c == '*'

/-- Does the text start with a backtick. -/
def headIsTick : List Char → Bool
  | [] => false
  | c :: _ => c == backtick

/-- Lazy search for the closing double asterisk of pass 1: content grows one
character at a time, never a newline (the dot of the pattern cannot match
one), until the first position where two asterisks follow. -/
def bClose : List Char → Option (List Char × List Char)
  | [] => none
  | c :: rest =>
    if c == '*' && headIsStar rest then some ([], rest.tail)
    else if c == '\n' then none
    else (bClose rest).map (fun p => (c :: p.1, p.2))

theorem bClose_len : ∀ (l : List Char) (ca : List Char × List Char),
    bClose l = some ca → ca.2.length < l.length := by
  intro l
  induction l with
  | nil => intro ca h; cases h
  | cons c rest ih =>
    intro ca h
    simp only [bClose] at h
    split at h
    · cases h
      have h2 : rest.tail.length ≤ rest.length := by
        cases rest <;> simp
      simp only [List.length_cons]
      omega
    · split at h
      · cases h
      · match h2 : bClose rest with
        | none => rw [h2] at h; cases h
        | some p =>
          rw [h2] at h
          simp only [Option.map] at h
          cases h
          have h3 := ih p h2
          simp only [List.length_cons]
          omega

/-- Pass 1: re.sub of the double-asterisk bold pattern. -/
def sub1 : List Char → List Char
  | [] => []
  | c :: rest =>
    if c == '*' && headIsStar rest then
      match hB : bClose rest.tail with
      | some ca => "<b>".data ++ ca.1 ++ "</b>".data ++ sub1 ca.2
      | none => c :: sub1 rest
    else c :: sub1 rest
termination_by l => l.length
decreasing_by
  · have h1 := bClose_len _ _ hB
    simp only [List.length_tail] at h1
    simp only [List.length_cons]
    omega
  · simp
  · simp

/-- Split at the first asterisk (the content of the lazy italic pattern can
contain anything except an asterisk, including newlines). -/
def iSplit : List Char → Option (List Char × List Char)
  | [] => none
  | c :: rest =>
    if c == '*' then some ([], rest)
    else (iSplit rest).map (fun p => (c :: p.1, p.2))

theorem iSplit_len : ∀ (l : List Char) (ca : List Char × List Char),
    iSplit l = some ca → ca.2.length < l.length := by
  intro l
  induction l with
  | nil => intro ca h; cases h
  | cons c rest ih =>
    intro ca h
    simp only [iSplit] at h
    split at h
    · cases h
      simp
    · match h2 : iSplit rest with
      | none => rw [h2] at h; cases h
      | some p =>
        rw [h2] at h
        simp only [Option.map] at h
        cases h
        have h3 := ih p h2
        simp only [List.length_cons]
        omega

/-- The italic match attempt after an opening asterisk: nonempty star-free
content, closing asterisk, negative lookahead for another asterisk. -/
def iMatch (l : List Char) : Option (List Char × List Char) :=
  (iSplit l).bind (fun ca => if ca.1.isEmpty || headIsStar ca.2 then none else some ca)

theorem iMatch_len (l : List Char) (ca : List Char × List Char)
    (h : iMatch l = some ca) : ca.2.length < l.length := by
  unfold iMatch at h
  match h2 : iSplit l with
  | none => rw [h2] at h; cases h
  | some p =>
    rw [h2, Option.some_bind] at h
    by_cases hc : p.1.isEmpty || headIsStar p.2
    · rw [if_pos hc] at h
      cases h
    · rw [if_neg hc] at h
      cases h
      exact iSplit_len l _ h2

/-- Pass 2: re.sub of the single-asterisk italic pattern.  The Boolean flag
records whether the character of the original text just before the current
scan position was an asterisk (the negative lookbehind). -/
def sub2 : Bool → List Char → List Char
  | _, [] => []
  | prevStar, c :: rest =>
    if c == '*' then
      if prevStar then c :: sub2 true rest
      else
        match hI : iMatch rest with
        | some ca => "<i>".data ++ ca.1 ++ "</i>".data ++ sub2 true ca.2
        | none => c :: sub2 true rest
    else c :: sub2 false rest
termination_by _ l => l.length
decreasing_by
  · simp
  · have h1 := iMatch_len _ _ hI
    simp only [List.length_cons]
    omega
  · simp
  · simp

/-- Lazy search for the closing triple backtick of pass 3 (DOTALL: newlines
allowed in the content). -/
def tClose3 : List Char → Option (List Char × List Char)
  | [] => none
  | c :: rest =>
    if c == backtick && startsWithL [backtick, backtick] rest then
      some ([], rest.drop 2)
    else (tClose3 rest).map (fun p => (c :: p.1, p.2))

theorem tClose3_len : ∀ (l : List Char) (ca : List Char × List Char),
    tClose3 l = some ca → ca.2.length < l.length := by
  intro l
  induction l with
  | nil => intro ca h; cases h
  | cons c rest ih =>
    intro ca h
    simp only [tClose3] at h
    split at h
    · cases h
      have h2 : (rest.drop 2).length ≤ rest.length := by
        simp
      simp only [List.length_cons]
      omega
    · match h2 : tClose3 rest with
      | none => rw [h2] at h; cases h
      | some p =>
        rw [h2] at h
        simp only [Option.map] at h
        cases h
        have h3 := ih p h2
        simp only [List.length_cons]
        omega

/-- Pass 3: re.sub of the triple-backtick code pattern. -/
def sub3 : List Char → List Char
  | [] => []
  | c :: rest =>
    if c == backtick && startsWithL [backtick, backtick] rest then
      match hT : tClose3 (rest.drop 2) with
      | some ca => "<code>".data ++ ca.1 ++ "</code>".data ++ sub3 ca.2
      | none => c :: sub3 rest
    else c :: sub3 rest
termination_by l => l.length
decreasing_by
  · have h1 := tClose3_len _ _ hT
    simp only [List.length_drop] at h1
    simp only [List.length_cons]
    omega
  · simp
  · simp

/-- Split at the first single backtick. -/
def cSplit : List Char → Option (List Char × List Char)
  | [] => none
  | c :: rest =>
    if c == backtick then some ([], rest)
    else (cSplit rest).map (fun p => (c :: p.1, p.2))

theorem cSplit_len : ∀ (l : List Char) (ca : List Char × List Char),
    cSplit l = some ca → ca.2.length < l.length := by
  intro l
  induction l with
  | nil => intro ca h; cases h
  | cons c rest ih =>
    intro ca h
    simp only [cSplit] at h
    split at h
    · cases h
      simp
    · match h2 : cSplit rest with
      | none => rw [h2] at h; cases h
      | some p =>
        rw [h2] at h
        simp only [Option.map] at h
        cases h
        have h3 := ih p h2
        simp only [List.length_cons]
        omega

/-- The inline-code match attempt after an opening backtick: nonempty
backtick-free content and a closing backtick. -/
def cMatch (l : List Char) : Option (List Char × List Char) :=
  (cSplit l).bind (fun ca => if ca.1.isEmpty then none else some ca)

theorem cMatch_len (l : List Char) (ca : List Char × List Char)
    (h : cMatch l = some ca) : ca.2.length < l.length := by
  unfold cMatch at h
  match h2 : cSplit l with
  | none => rw [h2] at h; cases h
  | some p =>
    rw [h2, Option.some_bind] at h
    by_cases hc : p.1.isEmpty
    · rw [if_pos hc] at h
      cases h
    · rw [if_neg hc] at h
      cases h
      exact cSplit_len l _ h2

/-- Pass 4: re.sub of the single-backtick code pattern. -/
def sub4 : List Char → List Char
  | [] => []
  | c :: rest =>
    if c == backtick then
      match hC : cMatch rest with
      | some ca => "<code>".data ++ ca.1 ++ "</code>".data ++ sub4 ca.2
      | none => c :: sub4 rest
    else c :: sub4 rest
termination_by l => l.length
decreasing_by
  · have h1 := cMatch_len _ _ hC
    simp only [List.length_cons]
    omega
  · simp
  · simp

/-- telegram_bot.py lines 141-158: the four passes in source order. -/
def fix_telegram_formatting (l : List Char) : List Char :=
  sub4 (sub3 (sub2 false (sub1 l)))

/-! ## get_yandex_response, show_thinking_animation, handle_question -/

/-- telegram_bot.py lines 91-139: get_yandex_response.  The completion call
either raises (Except.error, any exception inside the try) or returns the
list of alternatives; an empty list is the falsy / len = 0 case.  A
successful first alternative is passed through fix_telegram_formatting. -/
def getYandexResponse (completion : Except Unit (List (List Char))) : List Char :=
  match completion with
  | .error _ => SYSTEM_PROMPTS_error
  | .ok [] => SYSTEM_PROMPTS_no_response
  | .ok (r :: _) => fix_telegram_formatting r

/-- Outcome of one transport call inside show_thinking_animation: a send
that returns ok carries the new message_id; notOk is a response without ok
(the code only reads the id from an ok response and never checks the edit
response); exn is a raised exception. -/
inductive TOutcome
  | ok (mid : Nat)
  | notOk
  | exn
deriving DecidableEq

/-- A transport call of the thinking animation: sendMessage or
editMessageText of a previously created message. -/
inductive TAction
  | send (text : List Char)
  | edit (mid : Nat) (text : List Char)
deriving DecidableEq

/-- telegram_bot.py lines 260-265: the fixed status strings. -/
def thinkingMessages : List (List Char) :=
  ["🤔 Анализирую учебные планы...".data,
   "📚 Ищу информацию в базе данных...".data,
   "🔍 Проверяю детали программ...".data,
   "💭 Формулирую ответ...".data]

/-- telegram_bot.py lines 267-302: the loop of show_thinking_animation.
While message_id is None the current status is sent as a new message (an ok
response records its id; a notOk response leaves message_id as None, so the
next status is sent again as a fresh message); once an id exists the status
is applied by editMessageText, whose response is never inspected.  Only a
raised exception breaks the loop.  Returns message_id and the calls made. -/
def thinkLoop (oracle : Nat → TOutcome) :
    Nat → Option Nat → List (List Char) → Option Nat × List TAction
  | _, mid, [] => (mid, [])
  | i, none, msg :: rest =>
    match oracle i with
    | .ok m =>
      let r := thinkLoop oracle (i + 1) (some m) rest
      (r.1, .send msg :: r.2)
    | .notOk =>
      let r := thinkLoop oracle (i + 1) none rest
      (r.1, .send msg :: r.2)
    | .exn => (none, [.send msg])
  | i, some m, msg :: rest =>
    match oracle i with
    | .exn => (some m, [.edit m msg])
    | _ =>
      let r := thinkLoop oracle (i + 1) (some m) rest
      (r.1, .edit m msg :: r.2)

/-- telegram_bot.py lines 258-302: show_thinking_animation. -/
def show_thinking_animation (oracle : Nat → TOutcome) : Option Nat × List TAction :=
  thinkLoop oracle 0 none thinkingMessages

/-- telegram_bot.py line 348: the literal apology sent on the error path of
handle_question (textually identical to SYSTEM_PROMPTS['error']). -/
def handleQuestionErrorMessage : List Char :=
  "Извините, произошла ошибка при обработке вашего вопроса. Попробуйте позже.".data

/-- The environment of one handle_question call: whether the unprotected
typing-indicator post raises, the transport oracle of the thinking
animation, the outcome of awaiting the response step (ok carries the text
returned by get_yandex_response; error is any exception reaching
handle_question's except clause), and whether the deleteMessage post raises
(its failure is swallowed by the inner try/except in both branches). -/
structure HQEnv where
  typingRaises : Bool
  thinkO : Nat → TOutcome
  answer : Except Unit (List Char)
  deleteRaises : Bool

/-- Observable actions of handle_question in order. -/
inductive HAct
  | typing
  | think (a : TAction)
  | deleteMsg (mid : Nat)
  | finalSend (text : List Char)
deriving DecidableEq

/-- telegram_bot.py lines 304-349: handle_question.  If the typing post
raises, the except clause runs with thinking_message_id = None: no deletion,
apology sent.  Otherwise the animation runs, then on both the success path
and the except path the indicator (when one was created) is deleted
best-effort - the deleteRaises flag never changes the trace - before the
final text (answer or apology) is sent. -/
def handle_question (env : HQEnv) : List HAct :=
  if env.typingRaises then [HAct.typing, HAct.finalSend handleQuestionErrorMessage]
  else
    let t := show_thinking_animation env.thinkO
    let pre := HAct.typing :: t.2.map HAct.think
    let del : List HAct :=
      match t.1 with
      | some m => [HAct.deleteMsg m]
      | none => []
    match env.answer with
    | .ok ans => pre ++ del ++ [HAct.finalSend ans]
    | .error _ => pre ++ del ++ [HAct.finalSend handleQuestionErrorMessage]

/-- C5: a completion call that raises yields the fixed processing-error
fallback; one that returns the empty list yields the fixed empty-response
fallback; in every non-raising-typing run of handle_question whose response
step yields get_yandex_response's result, the final (latest) transport send
carries exactly that string - no exception propagates, since the embedding
of get_yandex_response is total. -/
theorem C5_fallbacks (completion : Except Unit (List (List Char))) :
    (completion = .error () → getYandexResponse completion = SYSTEM_PROMPTS_error) ∧
    (completion = .ok [] → getYandexResponse completion = SYSTEM_PROMPTS_no_response) ∧
    (∀ env : HQEnv, env.typingRaises = false →
      env.answer = .ok (getYandexResponse completion) →
      (handle_question env).getLast?
        = some (HAct.finalSend (getYandexResponse completion))) := by
  refine ⟨?_, ?_, ?_⟩
  · intro h; subst h; rfl
  · intro h; subst h; rfl
  · intro env h1 h2
    rw [handle_question, if_neg (by rw [h1]; exact Bool.false_ne_true), h2]
    exact List.getLast?_concat _

theorem C5_witness :
    getYandexResponse (.error ()) = SYSTEM_PROMPTS_error ∧
    getYandexResponse (.ok []) = SYSTEM_PROMPTS_no_response ∧
    (handle_question
        ⟨false, fun _ => .ok 7, .ok (getYandexResponse (.error ())), true⟩).getLast?
      = some (HAct.finalSend (getYandexResponse (.error ()))) :=
  ⟨(C5_fallbacks (.error ())).1 rfl,
   (C5_fallbacks (.ok [])).2.1 rfl,
   (C5_fallbacks (.error ())).2.2
     ⟨false, fun _ => .ok 7, .ok (getYandexResponse (.error ())), true⟩ rfl rfl⟩

/-- The oracle exhibiting the C8 counterexample: the first send returns a
response without ok, every later call succeeds with message_id 7. -/
def c8Oracle : Nat → TOutcome := fun i => if i == 0 then .notOk else .ok 7

/-- C8 fails as stated: when the first send merely returns a non-ok response
(a transport failure that raises nothing), the loop does not stop - the next
status is sent as a second fresh message, and the remaining statuses edit
that second message.  So a transport failure neither aborts the remaining
sends/edits nor do all subsequent statuses edit the first message. -/
theorem C8_counterexample :
    (show_thinking_animation c8Oracle).2 =
      [TAction.send "🤔 Анализирую учебные планы...".data,
       TAction.send "📚 Ищу информацию в базе данных...".data,
       TAction.edit 7 "🔍 Проверяю детали программ...".data,
       TAction.edit 7 "💭 Формулирую ответ...".data] := by
  rfl

theorem thinkLoop_edits (oracle : Nat → TOutcome) (m : Nat) :
    ∀ (msgs : List (List Char)) (i : Nat),
      (∀ j, j < msgs.length → oracle (i + j) ≠ .exn) →
      thinkLoop oracle i (some m) msgs = (some m, msgs.map (.edit m)) := by
  intro msgs
  induction msgs with
  | nil => intro i _; rfl
  | cons msg rest ih =>
    intro i h
    have h0 : oracle i ≠ .exn := by
      have := h 0 (by simp)
      simpa using this
    have hrest : ∀ j, j < rest.length → oracle (i + 1 + j) ≠ .exn := by
      intro j hj
      have := h (j + 1) (by simp; omega)
      rwa [show i + (j + 1) = i + 1 + j by omega] at this
    match hi : oracle i with
    | .exn => exact absurd hi h0
    | .ok k => simp only [thinkLoop, hi, ih (i + 1) hrest, List.map]
    | .notOk => simp only [thinkLoop, hi, ih (i + 1) hrest, List.map]

theorem thinkLoop_exn (oracle : Nat → TOutcome) (m : Nat) :
    ∀ (msgs : List (List Char)) (i k : Nat),
      k < msgs.length →
      (∀ j, j < k → oracle (i + j) ≠ .exn) →
      oracle (i + k) = .exn →
      thinkLoop oracle i (some m) msgs = (some m, (msgs.take (k + 1)).map (.edit m)) := by
  intro msgs
  induction msgs with
  | nil => intro i k hk; simp at hk
  | cons msg rest ih =>
    intro i k hk hpre hexn
    match k with
    | 0 =>
      rw [Nat.add_zero] at hexn
      simp only [thinkLoop, hexn, List.take, List.map]
    | k2 + 1 =>
      have h0 : oracle i ≠ .exn := by
        have := hpre 0 (by omega)
        simpa using this
      have hpre2 : ∀ j, j < k2 → oracle (i + 1 + j) ≠ .exn := by
        intro j hj
        have := hpre (j + 1) (by omega)
        rwa [show i + (j + 1) = i + 1 + j by omega] at this
      have hexn2 : oracle (i + 1 + k2) = .exn := by
        rwa [show i + (k2 + 1) = i + 1 + k2 by omega] at hexn
      have hk2 : k2 < rest.length := by simp at hk; omega
      match hi : oracle i with
      | .exn => exact absurd hi h0
      | .ok k3 =>
        simp only [thinkLoop, hi, ih (i + 1) k2 hk2 hpre2 hexn2, List.take, List.map]
      | .notOk =>
        simp only [thinkLoop, hi, ih (i + 1) k2 hk2 hpre2 hexn2, List.take, List.map]

/-- C8 amended: when the first send succeeds with message id m, every
subsequent status is applied by editing that same message; if no call
raises, all four statuses are driven this way, and a raised exception at
step k of the sequence silently aborts the remaining steps - the trace stops
with the failing edit, the indicator stays on its last successfully set
text, and the returned id is still m (so the question handling proceeds).
A send whose response is merely non-ok does not abort the sequence (see the
counterexample: the next status is then sent as a fresh message), and edit
responses are never inspected. -/
theorem C8_thinking_sequence (oracle : Nat → TOutcome) (m : Nat)
    (h0 : oracle 0 = .ok m) :
    ((∀ j, j < thinkingMessages.length → oracle j ≠ .exn) →
      show_thinking_animation oracle =
        (some m, .send "🤔 Анализирую учебные планы...".data
          :: (thinkingMessages.drop 1).map (.edit m))) ∧
    (∀ k, 1 ≤ k → k < thinkingMessages.length →
      (∀ j, j < k → oracle j ≠ .exn) → oracle k = .exn →
      show_thinking_animation oracle =
        (some m, .send "🤔 Анализирую учебные планы...".data
          :: ((thinkingMessages.drop 1).take k).map (.edit m))) := by
  constructor
  · intro hne
    have hrest : ∀ j, j < (thinkingMessages.drop 1).length → oracle (1 + j) ≠ .exn := by
      intro j hj
      have hj2 : j < 3 := by simpa [thinkingMessages] using hj
      exact hne (1 + j) (by simp [thinkingMessages]; omega)
    rw [show show_thinking_animation oracle
        = thinkLoop oracle 0 none thinkingMessages from rfl]
    rw [show thinkLoop oracle 0 none thinkingMessages
        = (let r := thinkLoop oracle 1 (some m) (thinkingMessages.drop 1)
           (r.1, .send "🤔 Анализирую учебные планы...".data :: r.2)) from by
      simp only [thinkingMessages, thinkLoop, h0, List.drop]]
    rw [thinkLoop_edits oracle m _ 1 hrest]
  · intro k hk1 hk4 hpre hexn
    have hrest : ∀ j, j < k - 1 → oracle (1 + j) ≠ .exn := by
      intro j hj
      exact hpre (1 + j) (by omega)
    have hexn2 : oracle (1 + (k - 1)) = .exn := by
      rwa [show 1 + (k - 1) = k by omega]
    have hklen : k - 1 < (thinkingMessages.drop 1).length := by
      simp only [thinkingMessages] at hk4 ⊢
      simp at hk4 ⊢
      omega
    rw [show show_thinking_animation oracle
        = thinkLoop oracle 0 none thinkingMessages from rfl]
    rw [show thinkLoop oracle 0 none thinkingMessages
        = (let r := thinkLoop oracle 1 (some m) (thinkingMessages.drop 1)
           (r.1, .send "🤔 Анализирую учебные планы...".data :: r.2)) from by
      simp only [thinkingMessages, thinkLoop, h0, List.drop]]
    rw [thinkLoop_exn oracle m _ 1 (k - 1) hklen hrest hexn2]
    rw [show k - 1 + 1 = k by omega]

def c8WitnessOracle : Nat → TOutcome :=
  fun i => if i < 2 then .ok 7 else .exn

theorem C8_witness :
    (show_thinking_animation (fun _ => TOutcome.ok 7) =
      (some 7, .send "🤔 Анализирую учебные планы...".data
        :: (thinkingMessages.drop 1).map (.edit 7))) ∧
    (c8WitnessOracle 0 = .ok 7 ∧
      show_thinking_animation c8WitnessOracle =
        (some 7, .send "🤔 Анализирую учебные планы...".data
          :: ((thinkingMessages.drop 1).take 2).map (.edit 7))) :=
  ⟨(C8_thinking_sequence (fun _ => TOutcome.ok 7) 7 rfl).1 (fun j _ => by decide),
   ⟨rfl,
    (C8_thinking_sequence c8WitnessOracle 7 rfl).2 2 (by decide) (by decide)
      (fun j hj => by
        match j, hj with
        | 0, _ => decide
        | 1, _ => decide)
      (by decide)⟩⟩

/-- C9: whenever the thinking indicator was successfully created (the
animation returned some id m) and the typing post did not raise, the trace
of handle_question is exactly the typing post, the animation calls, then a
best-effort deletion of m immediately followed by the final send - on the
success path and the error path alike, and independently of whether the
deletion itself raises; moreover every handle_question run, error paths
included, ends with a final send. -/
theorem C9_delete_before_final (env : HQEnv) (m : Nat)
    (h1 : env.typingRaises = false)
    (h2 : (show_thinking_animation env.thinkO).1 = some m) :
    (∃ x, handle_question env
        = (HAct.typing :: (show_thinking_animation env.thinkO).2.map HAct.think)
          ++ [HAct.deleteMsg m, HAct.finalSend x]) ∧
    (∀ env2 : HQEnv, ∃ y,
      (handle_question env2).getLast? = some (HAct.finalSend y)) := by
  constructor
  · rw [handle_question, if_neg (by rw [h1]; exact Bool.false_ne_true)]
    simp only [h2]
    cases henv : env.answer with
    | ok ans => exact ⟨ans, by simp⟩
    | error e => exact ⟨handleQuestionErrorMessage, by simp⟩
  · intro env2
    rw [handle_question]
    by_cases ht : env2.typingRaises
    · rw [if_pos ht]
      exact ⟨handleQuestionErrorMessage, rfl⟩
    · rw [if_neg ht]
      cases henv : env2.answer with
      | ok ans => exact ⟨ans, List.getLast?_concat _⟩
      | error e => exact ⟨handleQuestionErrorMessage, List.getLast?_concat _⟩

theorem C9_witness :
    (show_thinking_animation (fun _ => TOutcome.ok 7)).1 = some 7 ∧
    (∃ x, handle_question ⟨false, fun _ => TOutcome.ok 7, .error (), true⟩
        = (HAct.typing
            :: (show_thinking_animation (fun _ => TOutcome.ok 7)).2.map HAct.think)
          ++ [HAct.deleteMsg 7, HAct.finalSend x]) :=
  ⟨rfl,
   (C9_delete_before_final ⟨false, fun _ => TOutcome.ok 7, .error (), true⟩ 7
     rfl rfl).1⟩

/-! ## Idempotence of the formatter on well-formed markup (claim C7) -/

theorem sub1_nil : sub1 [] = [] := by
  simp [sub1]

theorem sub1_cons_ne (c : Char) (l : List Char) (hc : (c == '*') = false) :
    sub1 (c :: l) = c :: sub1 l := by
  rw [sub1]
  simp [hc]

theorem sub1_cons_star_single (l : List Char) (hl : headIsStar l = false) :
    sub1 ('*' :: l) = '*' :: sub1 l := by
  rw [sub1]
  simp [hl]

theorem sub2_nil (b : Bool) : sub2 b [] = [] := by
  rw [sub2]

theorem sub2_cons_ne (b : Bool) (c : Char) (l : List Char) (hc : (c == '*') = false) :
    sub2 b (c :: l) = c :: sub2 false l := by
  rw [sub2]
  simp [hc]

theorem sub3_cons_ne (c : Char) (l : List Char) (hc : (c == backtick) = false) :
    sub3 (c :: l) = c :: sub3 l := by
  rw [sub3]
  simp [hc]

theorem sub4_cons_ne (c : Char) (l : List Char) (hc : (c == backtick) = false) :
    sub4 (c :: l) = c :: sub4 l := by
  rw [sub4]
  simp [hc]

theorem beq_symm_false {c d : Char} (h : (c == d) = false) : (d == c) = false := by
  by_cases he : d = c
  · subst he
    simp at h
  · exact beq_eq_false_iff_ne.mpr he

theorem sub1_append_nostar :
    ∀ (p : List Char), (∀ c ∈ p, (c == '*') = false) →
      ∀ l, sub1 (p ++ l) = p ++ sub1 l := by
  intro p
  induction p with
  | nil => intro _ l; rfl
  | cons c p2 ih =>
    intro h l
    have hc := h c (List.mem_cons_self c p2)
    have h2 : ∀ d ∈ p2, (d == '*') = false :=
      fun d hd => h d (List.mem_cons_of_mem c hd)
    rw [List.cons_append, sub1_cons_ne c _ hc, ih h2 l, List.cons_append]

theorem sub1_id : ∀ (l : List Char), (∀ c ∈ l, (c == '*') = false) → sub1 l = l := by
  intro l
  induction l with
  | nil => intro _; exact sub1_nil
  | cons c rest ih =>
    intro h
    rw [sub1_cons_ne c rest (h c (List.mem_cons_self c rest)),
      ih (fun d hd => h d (List.mem_cons_of_mem c hd))]

theorem bClose_through :
    ∀ (s : List Char), (∀ c ∈ s, (c == '*') = false ∧ (c == '\n') = false) →
      ∀ rest, bClose (s ++ '*' :: '*' :: rest) = some (s, rest) := by
  intro s
  induction s with
  | nil =>
    intro _ rest
    rw [List.nil_append, bClose]
    simp [headIsStar]
  | cons c s2 ih =>
    intro h rest
    have hc := h c (List.mem_cons_self c s2)
    have h2 : ∀ d ∈ s2, (d == '*') = false ∧ (d == '\n') = false :=
      fun d hd => h d (List.mem_cons_of_mem c hd)
    rw [List.cons_append, bClose]
    simp [hc.1, hc.2, ih h2 rest]

theorem sub1_bold (s : List Char)
    (hs : ∀ c ∈ s, (c == '*') = false ∧ (c == '\n') = false) (l : List Char) :
    sub1 ('*' :: '*' :: (s ++ '*' :: '*' :: l))
      = "<b>".data ++ s ++ "</b>".data ++ sub1 l := by
  rw [sub1]
  simp only [headIsStar, beq_self_eq_true, Bool.and_self, if_true, List.tail_cons]
  split
  · rename_i ca heq
    rw [bClose_through s hs l] at heq
    cases heq
    simp
  · rename_i heq
    rw [bClose_through s hs l] at heq
    cases heq

theorem sub1_ital (s : List Char) (hne : s ≠ [])
    (hs : ∀ c ∈ s, (c == '*') = false) (l : List Char) (hl : headIsStar l = false) :
    sub1 ('*' :: (s ++ '*' :: l)) = '*' :: s ++ '*' :: sub1 l := by
  match s, hne with
  | c :: s2, _ =>
    have hc : (c == '*') = false := hs c (List.mem_cons_self c s2)
    have hs2 : ∀ d ∈ s2, (d == '*') = false :=
      fun d hd => hs d (List.mem_cons_of_mem c hd)
    have hX : headIsStar ((c :: s2) ++ '*' :: l) = false := hc
    rw [sub1_cons_star_single _ hX, List.cons_append, sub1_cons_ne c _ hc,
      sub1_append_nostar s2 hs2 ('*' :: l), sub1_cons_star_single l hl]
    simp

theorem sub2_skip :
    ∀ (p : List Char), (∀ c ∈ p, (c == '*') = false) →
      ∀ (b : Bool) (l : List Char), sub2 b (p ++ l) = p ++ sub2 (b && p.isEmpty) l := by
  intro p
  induction p with
  | nil =>
    intro _ b l
    simp
  | cons c p2 ih =>
    intro h b l
    have hc := h c (List.mem_cons_self c p2)
    have h2 : ∀ d ∈ p2, (d == '*') = false :=
      fun d hd => h d (List.mem_cons_of_mem c hd)
    rw [List.cons_append, sub2_cons_ne b c _ hc, ih h2 false l]
    simp

theorem sub2_id : ∀ (l : List Char), (∀ c ∈ l, (c == '*') = false) →
    ∀ b, sub2 b l = l := by
  intro l
  induction l with
  | nil => intro _ b; exact sub2_nil b
  | cons c rest ih =>
    intro h b
    rw [sub2_cons_ne b c rest (h c (List.mem_cons_self c rest)),
      ih (fun d hd => h d (List.mem_cons_of_mem c hd)) false]

theorem iSplit_through :
    ∀ (s : List Char), (∀ c ∈ s, (c == '*') = false) →
      ∀ l, iSplit (s ++ '*' :: l) = some (s, l) := by
  intro s
  induction s with
  | nil =>
    intro _ l
    rw [List.nil_append, iSplit]
    simp
  | cons c s2 ih =>
    intro h l
    have hc := h c (List.mem_cons_self c s2)
    have h2 : ∀ d ∈ s2, (d == '*') = false :=
      fun d hd => h d (List.mem_cons_of_mem c hd)
    rw [List.cons_append, iSplit]
    simp [hc, ih h2 l]

theorem iMatch_eval (s : List Char) (hne : s ≠ [])
    (hs : ∀ c ∈ s, (c == '*') = false) (l : List Char)
    (hl : headIsStar l = false) :
    iMatch (s ++ '*' :: l) = some (s, l) := by
  unfold iMatch
  rw [iSplit_through s hs l, Option.some_bind]
  have h1 : s.isEmpty = false := by
    cases s with
    | nil => exact absurd rfl hne
    | cons a b => rfl
  simp [h1, hl]

theorem sub2_ital (s : List Char) (hne : s ≠ [])
    (hs : ∀ c ∈ s, (c == '*') = false) (l : List Char)
    (hl : headIsStar l = false) :
    sub2 false ('*' :: (s ++ '*' :: l))
      = "<i>".data ++ s ++ "</i>".data ++ sub2 true l := by
  rw [sub2]
  simp only [beq_self_eq_true, if_true, Bool.false_eq_true, if_false]
  split
  · rename_i ca heq
    rw [iMatch_eval s hne hs l hl] at heq
    cases heq
    simp
  · rename_i heq
    rw [iMatch_eval s hne hs l hl] at heq
    cases heq

theorem sub2_b_irrel (l : List Char) (hl : headIsStar l = false) (b1 b2 : Bool) :
    sub2 b1 l = sub2 b2 l := by
  match l with
  | [] => rw [sub2_nil, sub2_nil]
  | c :: rest =>
    have hc : (c == '*') = false := hl
    rw [sub2_cons_ne b1 c rest hc, sub2_cons_ne b2 c rest hc]

theorem sub3_nil : sub3 [] = [] := by
  rw [sub3]

theorem sub4_nil : sub4 [] = [] := by
  rw [sub4]

theorem sub3_append_notick :
    ∀ (p : List Char), (∀ c ∈ p, (c == backtick) = false) →
      ∀ l, sub3 (p ++ l) = p ++ sub3 l := by
  intro p
  induction p with
  | nil => intro _ l; rfl
  | cons c p2 ih =>
    intro h l
    have hc := h c (List.mem_cons_self c p2)
    have h2 : ∀ d ∈ p2, (d == backtick) = false :=
      fun d hd => h d (List.mem_cons_of_mem c hd)
    rw [List.cons_append, sub3_cons_ne c _ hc, ih h2 l, List.cons_append]

theorem sub4_append_notick :
    ∀ (p : List Char), (∀ c ∈ p, (c == backtick) = false) →
      ∀ l, sub4 (p ++ l) = p ++ sub4 l := by
  intro p
  induction p with
  | nil => intro _ l; rfl
  | cons c p2 ih =>
    intro h l
    have hc := h c (List.mem_cons_self c p2)
    have h2 : ∀ d ∈ p2, (d == backtick) = false :=
      fun d hd => h d (List.mem_cons_of_mem c hd)
    rw [List.cons_append, sub4_cons_ne c _ hc, ih h2 l, List.cons_append]

theorem sub3_id : ∀ (l : List Char), (∀ c ∈ l, (c == backtick) = false) →
    sub3 l = l := by
  intro l
  induction l with
  | nil => intro _; exact sub3_nil
  | cons c rest ih =>
    intro h
    rw [sub3_cons_ne c rest (h c (List.mem_cons_self c rest)),
      ih (fun d hd => h d (List.mem_cons_of_mem c hd))]

theorem sub4_id : ∀ (l : List Char), (∀ c ∈ l, (c == backtick) = false) →
    sub4 l = l := by
  intro l
  induction l with
  | nil => intro _; exact sub4_nil
  | cons c rest ih =>
    intro h
    rw [sub4_cons_ne c rest (h c (List.mem_cons_self c rest)),
      ih (fun d hd => h d (List.mem_cons_of_mem c hd))]

theorem startsWithL_two_tick_false (l : List Char) (hl : headIsTick l = false) :
    startsWithL [backtick, backtick] l = false := by
  match l with
  | [] => rfl
  | c :: rest =>
    have hc : (c == backtick) = false := hl
    have hc2 : (backtick == c) = false := beq_symm_false hc
    simp [startsWithL, hc2]

theorem tClose3_through :
    ∀ (s : List Char), (∀ c ∈ s, (c == backtick) = false) →
      ∀ l, tClose3 (s ++ backtick :: backtick :: backtick :: l) = some (s, l) := by
  intro s
  induction s with
  | nil =>
    intro _ l
    rw [List.nil_append, tClose3]
    simp [startsWithL, List.drop]
  | cons c s2 ih =>
    intro h l
    have hc := h c (List.mem_cons_self c s2)
    have h2 : ∀ d ∈ s2, (d == backtick) = false :=
      fun d hd => h d (List.mem_cons_of_mem c hd)
    rw [List.cons_append, tClose3]
    simp [hc, ih h2 l]

theorem sub3_3ticks (s : List Char) (hs : ∀ c ∈ s, (c == backtick) = false)
    (l : List Char) :
    sub3 (backtick :: backtick :: backtick :: (s ++ backtick :: backtick :: backtick :: l))
      = "<code>".data ++ s ++ "</code>".data ++ sub3 l := by
  rw [sub3]
  simp only [beq_self_eq_true, startsWithL, Bool.and_self, if_true, List.drop]
  split
  · rename_i ca heq
    rw [tClose3_through s hs l] at heq
    cases heq
    simp
  · rename_i heq
    rw [tClose3_through s hs l] at heq
    cases heq

theorem sub3_tick_single (l : List Char)
    (hl : startsWithL [backtick, backtick] l = false) :
    sub3 (backtick :: l) = backtick :: sub3 l := by
  rw [sub3]
  simp [hl]

theorem sub3_code1_skip (s : List Char) (hne : s ≠ [])
    (hs : ∀ c ∈ s, (c == backtick) = false) (l : List Char)
    (hl : headIsTick l = false) :
    sub3 (backtick :: (s ++ backtick :: l)) = backtick :: s ++ backtick :: sub3 l := by
  match s, hne with
  | c :: s2, _ =>
    have hc : (c == backtick) = false := hs c (List.mem_cons_self c s2)
    have hs2 : ∀ d ∈ s2, (d == backtick) = false :=
      fun d hd => hs d (List.mem_cons_of_mem c hd)
    have hsw : startsWithL [backtick, backtick] ((c :: s2) ++ backtick :: l) = false := by
      rw [List.cons_append]
      exact startsWithL_two_tick_false _ hc
    rw [sub3_tick_single _ hsw, List.cons_append, sub3_cons_ne c _ hc,
      sub3_append_notick s2 hs2 (backtick :: l),
      sub3_tick_single l (startsWithL_two_tick_false l hl)]
    simp

theorem cSplit_through :
    ∀ (s : List Char), (∀ c ∈ s, (c == backtick) = false) →
      ∀ l, cSplit (s ++ backtick :: l) = some (s, l) := by
  intro s
  induction s with
  | nil =>
    intro _ l
    rw [List.nil_append, cSplit]
    simp
  | cons c s2 ih =>
    intro h l
    have hc := h c (List.mem_cons_self c s2)
    have h2 : ∀ d ∈ s2, (d == backtick) = false :=
      fun d hd => h d (List.mem_cons_of_mem c hd)
    rw [List.cons_append, cSplit]
    simp [hc, ih h2 l]

theorem cMatch_eval (s : List Char) (hne : s ≠ [])
    (hs : ∀ c ∈ s, (c == backtick) = false) (l : List Char) :
    cMatch (s ++ backtick :: l) = some (s, l) := by
  unfold cMatch
  rw [cSplit_through s hs l, Option.some_bind]
  have h1 : s.isEmpty = false := by
    cases s with
    | nil => exact absurd rfl hne
    | cons a b => rfl
  simp [h1]

theorem sub4_code1 (s : List Char) (hne : s ≠ [])
    (hs : ∀ c ∈ s, (c == backtick) = false) (l : List Char) :
    sub4 (backtick :: (s ++ backtick :: l))
      = "<code>".data ++ s ++ "</code>".data ++ sub4 l := by
  rw [sub4]
  simp only [beq_self_eq_true, if_true]
  split
  · rename_i ca heq
    rw [cMatch_eval s hne hs l] at heq
    cases heq
    simp
  · rename_i heq
    rw [cMatch_eval s hne hs l] at heq
    cases heq

/-- One segment of well-formed markup input: plain text or one of the four
recognized patterns with its content. -/
inductive Tok
  | plain (s : List Char)
  | bold (s : List Char)
  | ital (s : List Char)
  | code3 (s : List Char)
  | code1 (s : List Char)
deriving DecidableEq

/-- A character that belongs to no markup delimiter. -/
def goodChar (c : Char) : Bool := !(c == '*') && !(c == backtick)

/-- Content restrictions per segment: nonempty, no asterisks or backticks
inside contents, and no newline inside bold or italic contents (the dot of
the bold pattern cannot match newlines). -/
def tokOK : Tok → Bool
  | .plain s => !s.isEmpty && s.all goodChar
  | .bold s => !s.isEmpty && s.all (fun c => goodChar c && !(c == '\n'))
  | .ital s => !s.isEmpty && s.all (fun c => goodChar c && !(c == '\n'))
  | .code3 s => !s.isEmpty && s.all goodChar
  | .code1 s => !s.isEmpty && s.all goodChar

def isPlainTok : Tok → Bool
  | .plain _ => true
  | _ => false

/-- What may follow a markup segment: nothing, or a plain segment. -/
def afterOK : List Tok → Bool
  | [] => true
  | t :: _ => isPlainTok t

/-- Well-formed markup: every segment content is admissible and two markup
segments never touch (a nonempty plain segment or the end of the string
follows each one). -/
def wfTokens : List Tok → Bool
  | [] => true
  | t :: ts => tokOK t && wfTokens ts && (isPlainTok t || afterOK ts)

/-- Source text of one segment. -/
def rend : Tok → List Char
  | .plain s => s
  | .bold s => '*' :: '*' :: (s ++ ['*', '*'])
  | .ital s => '*' :: (s ++ ['*'])
  | .code3 s =>
    backtick :: backtick :: backtick :: (s ++ [backtick, backtick, backtick])
  | .code1 s => backtick :: (s ++ [backtick])

/-- Segment text after pass 1 (bold converted). -/
def rend1 : Tok → List Char
  | .bold s => "<b>".data ++ s ++ "</b>".data
  | t => rend t

/-- Segment text after pass 2 (bold and italic converted). -/
def rend2 : Tok → List Char
  | .bold s => "<b>".data ++ s ++ "</b>".data
  | .ital s => "<i>".data ++ s ++ "</i>".data
  | t => rend t

/-- Segment text after pass 3. -/
def rend3 : Tok → List Char
  | .bold s => "<b>".data ++ s ++ "</b>".data
  | .ital s => "<i>".data ++ s ++ "</i>".data
  | .code3 s => "<code>".data ++ s ++ "</code>".data
  | t => rend t

/-- Segment text after all four passes. -/
def rend4 : Tok → List Char
  | .plain s => s
  | .bold s => "<b>".data ++ s ++ "</b>".data
  | .ital s => "<i>".data ++ s ++ "</i>".data
  | .code3 s => "<code>".data ++ s ++ "</code>".data
  | .code1 s => "<code>".data ++ s ++ "</code>".data

/-- Concatenated rendering of a segment list under a stage function. -/
def rendList (f : Tok → List Char) (ts : List Tok) : List Char :=
  (ts.map f).join

theorem rendList_nil (f : Tok → List Char) : rendList f [] = [] := rfl

theorem rendList_cons (f : Tok → List Char) (t : Tok) (ts : List Tok) :
    rendList f (t :: ts) = f t ++ rendList f ts := by
  simp [rendList]

theorem notEmpty_ne_nil {s : List Char} (h : s.isEmpty = false) : s ≠ [] := by
  cases s with
  | nil => cases h
  | cons a b => exact List.cons_ne_nil a b

theorem wf_head {t : Tok} {ts : List Tok} (h : wfTokens (t :: ts) = true) :
    tokOK t = true ∧ wfTokens ts = true ∧
      (isPlainTok t = true ∨ afterOK ts = true) := by
  have h2 : (tokOK t && wfTokens ts && (isPlainTok t || afterOK ts)) = true := h
  simp only [Bool.and_eq_true, Bool.or_eq_true] at h2
  exact ⟨h2.1.1, h2.1.2, h2.2⟩

theorem tokOK_plain {s : List Char} (h : tokOK (Tok.plain s) = true) :
    s ≠ [] ∧ ∀ c ∈ s, (c == '*') = false ∧ (c == backtick) = false := by
  simp only [tokOK, goodChar, Bool.and_eq_true, Bool.not_eq_true',
    List.all_eq_true] at h
  exact ⟨notEmpty_ne_nil h.1, h.2⟩

theorem tokOK_bold {s : List Char} (h : tokOK (Tok.bold s) = true) :
    s ≠ [] ∧ ∀ c ∈ s,
      (c == '*') = false ∧ (c == backtick) = false ∧ (c == '\n') = false := by
  simp only [tokOK, goodChar, Bool.and_eq_true, Bool.not_eq_true',
    List.all_eq_true] at h
  exact ⟨notEmpty_ne_nil h.1,
    fun c hc => ⟨(h.2 c hc).1.1, (h.2 c hc).1.2, (h.2 c hc).2⟩⟩

theorem tokOK_ital {s : List Char} (h : tokOK (Tok.ital s) = true) :
    s ≠ [] ∧ ∀ c ∈ s,
      (c == '*') = false ∧ (c == backtick) = false ∧ (c == '\n') = false := by
  simp only [tokOK, goodChar, Bool.and_eq_true, Bool.not_eq_true',
    List.all_eq_true] at h
  exact ⟨notEmpty_ne_nil h.1,
    fun c hc => ⟨(h.2 c hc).1.1, (h.2 c hc).1.2, (h.2 c hc).2⟩⟩

theorem tokOK_code3 {s : List Char} (h : tokOK (Tok.code3 s) = true) :
    s ≠ [] ∧ ∀ c ∈ s, (c == '*') = false ∧ (c == backtick) = false := by
  simp only [tokOK, goodChar, Bool.and_eq_true, Bool.not_eq_true',
    List.all_eq_true] at h
  exact ⟨notEmpty_ne_nil h.1, h.2⟩

theorem tokOK_code1 {s : List Char} (h : tokOK (Tok.code1 s) = true) :
    s ≠ [] ∧ ∀ c ∈ s, (c == '*') = false ∧ (c == backtick) = false := by
  simp only [tokOK, goodChar, Bool.and_eq_true, Bool.not_eq_true',
    List.all_eq_true] at h
  exact ⟨notEmpty_ne_nil h.1, h.2⟩

theorem forall_mem_append {p : Char → Bool} {l1 l2 : List Char}
    (h1 : ∀ c ∈ l1, p c = false) (h2 : ∀ c ∈ l2, p c = false) :
    ∀ c ∈ l1 ++ l2, p c = false := by
  intro c hc
  rcases List.mem_append.mp hc with hc | hc
  · exact h1 c hc
  · exact h2 c hc

theorem rendList_head_flags (f : Tok → List Char) (hf : ∀ p, f (.plain p) = p) :
    ∀ ts, wfTokens ts = true → afterOK ts = true →
      headIsStar (rendList f ts) = false ∧ headIsTick (rendList f ts) = false := by
  intro ts hwf hA
  match ts with
  | [] => exact ⟨rfl, rfl⟩
  | t :: ts2 =>
    match t with
    | .plain p =>
      have h1 := (wf_head hwf).1
      have hp := tokOK_plain h1
      rw [rendList_cons, hf p]
      match p, hp.1 with
      | c :: p2, _ =>
        have hc := hp.2 c (List.mem_cons_self c p2)
        rw [List.cons_append]
        exact ⟨hc.1, hc.2⟩
    | .bold s => simp [afterOK, isPlainTok] at hA
    | .ital s => simp [afterOK, isPlainTok] at hA
    | .code3 s => simp [afterOK, isPlainTok] at hA
    | .code1 s => simp [afterOK, isPlainTok] at hA

theorem pass1 : ∀ ts, wfTokens ts = true →
    sub1 (rendList rend ts) = rendList rend1 ts := by
  intro ts
  induction ts with
  | nil => intro _; exact sub1_nil
  | cons t ts2 ih =>
    intro hwf
    obtain ⟨h1, h2, h3⟩ := wf_head hwf
    rw [rendList_cons, rendList_cons]
    match t with
    | .plain s =>
      have hp := tokOK_plain h1
      rw [show rend1 (Tok.plain s) = s from rfl, show rend (Tok.plain s) = s from rfl,
        sub1_append_nostar s (fun c hc => (hp.2 c hc).1) _, ih h2]
    | .bold s =>
      have hb := tokOK_bold h1
      have hre : rend (Tok.bold s) ++ rendList rend ts2
          = '*' :: '*' :: (s ++ '*' :: '*' :: rendList rend ts2) := by
        simp [rend]
      rw [hre, sub1_bold s (fun c hc => ⟨(hb.2 c hc).1, (hb.2 c hc).2.2⟩) _, ih h2,
        show rend1 (Tok.bold s) = "<b>".data ++ s ++ "</b>".data from rfl]
      try simp
    | .ital s =>
      have hi := tokOK_ital h1
      have hA : afterOK ts2 = true := by
        rcases h3 with h3 | h3
        · simp [isPlainTok] at h3
        · exact h3
      have hhead := rendList_head_flags rend (fun p => rfl) ts2 h2 hA
      have hre : rend (Tok.ital s) ++ rendList rend ts2
          = '*' :: (s ++ '*' :: rendList rend ts2) := by
        simp [rend]
      rw [hre, sub1_ital s hi.1 (fun c hc => (hi.2 c hc).1) _ hhead.1, ih h2,
        show rend1 (Tok.ital s) = rend (Tok.ital s) from rfl]
      simp [rend]
    | .code3 s =>
      have hc3 := tokOK_code3 h1
      have hns : ∀ c ∈ rend (Tok.code3 s), (c == '*') = false := by
        intro c hc
        simp only [rend, List.mem_cons, List.mem_append] at hc
        rcases hc with hc | hc | hc | hc
        · subst hc; decide
        · subst hc; decide
        · subst hc; decide
        · rcases hc with hc | hc
          · exact (hc3.2 c hc).1
          · simp only [List.mem_cons, List.not_mem_nil] at hc
            rcases hc with hc | hc | hc | hc
            · subst hc; decide
            · subst hc; decide
            · subst hc; decide
            · cases hc
      rw [show rend1 (Tok.code3 s) = rend (Tok.code3 s) from rfl,
        sub1_append_nostar (rend (Tok.code3 s)) hns _, ih h2]
    | .code1 s =>
      have hc1 := tokOK_code1 h1
      have hns : ∀ c ∈ rend (Tok.code1 s), (c == '*') = false := by
        intro c hc
        simp only [rend, List.mem_cons, List.mem_append] at hc
        rcases hc with hc | hc
        · subst hc; decide
        · rcases hc with hc | hc
          · exact (hc1.2 c hc).1
          · simp only [List.mem_cons, List.not_mem_nil] at hc
            rcases hc with hc | hc
            · subst hc; decide
            · cases hc
      rw [show rend1 (Tok.code1 s) = rend (Tok.code1 s) from rfl,
        sub1_append_nostar (rend (Tok.code1 s)) hns _, ih h2]

theorem pass2 : ∀ ts, wfTokens ts = true →
    sub2 false (rendList rend1 ts) = rendList rend2 ts := by
  intro ts
  induction ts with
  | nil => intro _; exact sub2_nil false
  | cons t ts2 ih =>
    intro hwf
    obtain ⟨h1, h2, h3⟩ := wf_head hwf
    rw [rendList_cons, rendList_cons]
    match t with
    | .plain s =>
      have hp := tokOK_plain h1
      rw [show rend1 (Tok.plain s) = s from rfl, show rend2 (Tok.plain s) = s from rfl,
        sub2_skip s (fun c hc => (hp.2 c hc).1) false _]
      match s, hp.1 with
      | c :: s2, _ => rw [show ((c :: s2).isEmpty) = false from rfl, Bool.and_false, ih h2]
    | .bold s =>
      have hb := tokOK_bold h1
      have hns : ∀ c ∈ "<b>".data ++ s ++ "</b>".data, (c == '*') = false := by
        apply forall_mem_append
        · apply forall_mem_append
          · decide
          · exact fun c hc => (hb.2 c hc).1
        · decide
      rw [show rend1 (Tok.bold s) = "<b>".data ++ s ++ "</b>".data from rfl,
        show rend2 (Tok.bold s) = "<b>".data ++ s ++ "</b>".data from rfl,
        sub2_skip _ hns false _,
        show (("<b>".data ++ s ++ "</b>".data).isEmpty) = false from rfl,
        Bool.and_false, ih h2]
    | .ital s =>
      have hi := tokOK_ital h1
      have hA : afterOK ts2 = true := by
        rcases h3 with h3 | h3
        · simp [isPlainTok] at h3
        · exact h3
      have hhead := rendList_head_flags rend1 (fun p => rfl) ts2 h2 hA
      have hre : rend1 (Tok.ital s) ++ rendList rend1 ts2
          = '*' :: (s ++ '*' :: rendList rend1 ts2) := by
        simp [rend1, rend]
      rw [hre, sub2_ital s hi.1 (fun c hc => (hi.2 c hc).1) _ hhead.1,
        sub2_b_irrel _ hhead.1 true false, ih h2,
        show rend2 (Tok.ital s) = "<i>".data ++ s ++ "</i>".data from rfl]
      try simp
    | .code3 s =>
      have hc3 := tokOK_code3 h1
      have hns : ∀ c ∈ rend (Tok.code3 s), (c == '*') = false := by
        intro c hc
        simp only [rend, List.mem_cons, List.mem_append] at hc
        rcases hc with hc | hc | hc | hc
        · subst hc; decide
        · subst hc; decide
        · subst hc; decide
        · rcases hc with hc | hc
          · exact (hc3.2 c hc).1
          · simp only [List.mem_cons, List.not_mem_nil] at hc
            rcases hc with hc | hc | hc | hc
            · subst hc; decide
            · subst hc; decide
            · subst hc; decide
            · cases hc
      have hne : (rend (Tok.code3 s)).isEmpty = false := rfl
      rw [show rend1 (Tok.code3 s) = rend (Tok.code3 s) from rfl,
        show rend2 (Tok.code3 s) = rend (Tok.code3 s) from rfl,
        sub2_skip _ hns false _, hne, Bool.and_false, ih h2]
    | .code1 s =>
      have hc1 := tokOK_code1 h1
      have hns : ∀ c ∈ rend (Tok.code1 s), (c == '*') = false := by
        intro c hc
        simp only [rend, List.mem_cons, List.mem_append] at hc
        rcases hc with hc | hc
        · subst hc; decide
        · rcases hc with hc | hc
          · exact (hc1.2 c hc).1
          · simp only [List.mem_cons, List.not_mem_nil] at hc
            rcases hc with hc | hc
            · subst hc; decide
            · cases hc
      have hne : (rend (Tok.code1 s)).isEmpty = false := rfl
      rw [show rend1 (Tok.code1 s) = rend (Tok.code1 s) from rfl,
        show rend2 (Tok.code1 s) = rend (Tok.code1 s) from rfl,
        sub2_skip _ hns false _, hne, Bool.and_false, ih h2]

theorem pass3 : ∀ ts, wfTokens ts = true →
    sub3 (rendList rend2 ts) = rendList rend3 ts := by
  intro ts
  induction ts with
  | nil => intro _; exact sub3_nil
  | cons t ts2 ih =>
    intro hwf
    obtain ⟨h1, h2, h3⟩ := wf_head hwf
    rw [rendList_cons, rendList_cons]
    match t with
    | .plain s =>
      have hp := tokOK_plain h1
      rw [show rend2 (Tok.plain s) = s from rfl, show rend3 (Tok.plain s) = s from rfl,
        sub3_append_notick s (fun c hc => (hp.2 c hc).2) _, ih h2]
    | .bold s =>
      have hb := tokOK_bold h1
      have hnt : ∀ c ∈ "<b>".data ++ s ++ "</b>".data, (c == backtick) = false := by
        apply forall_mem_append
        · apply forall_mem_append
          · decide
          · exact fun c hc => (hb.2 c hc).2.1
        · decide
      rw [show rend2 (Tok.bold s) = "<b>".data ++ s ++ "</b>".data from rfl,
        show rend3 (Tok.bold s) = "<b>".data ++ s ++ "</b>".data from rfl,
        sub3_append_notick _ hnt _, ih h2]
    | .ital s =>
      have hi := tokOK_ital h1
      have hnt : ∀ c ∈ "<i>".data ++ s ++ "</i>".data, (c == backtick) = false := by
        apply forall_mem_append
        · apply forall_mem_append
          · decide
          · exact fun c hc => (hi.2 c hc).2.1
        · decide
      rw [show rend2 (Tok.ital s) = "<i>".data ++ s ++ "</i>".data from rfl,
        show rend3 (Tok.ital s) = "<i>".data ++ s ++ "</i>".data from rfl,
        sub3_append_notick _ hnt _, ih h2]
    | .code3 s =>
      have hc3 := tokOK_code3 h1
      have hre : rend2 (Tok.code3 s) ++ rendList rend2 ts2
          = backtick :: backtick :: backtick
            :: (s ++ backtick :: backtick :: backtick :: rendList rend2 ts2) := by
        simp [rend2, rend]
      rw [hre, sub3_3ticks s (fun c hc => (hc3.2 c hc).2) _, ih h2,
        show rend3 (Tok.code3 s) = "<code>".data ++ s ++ "</code>".data from rfl]
      try simp
    | .code1 s =>
      have hc1 := tokOK_code1 h1
      have hA : afterOK ts2 = true := by
        rcases h3 with h3 | h3
        · simp [isPlainTok] at h3
        · exact h3
      have hhead := rendList_head_flags rend2 (fun p => rfl) ts2 h2 hA
      have hre : rend2 (Tok.code1 s) ++ rendList rend2 ts2
          = backtick :: (s ++ backtick :: rendList rend2 ts2) := by
        simp [rend2, rend]
      rw [hre, sub3_code1_skip s hc1.1 (fun c hc => (hc1.2 c hc).2) _ hhead.2,
        ih h2, show rend3 (Tok.code1 s) = rend (Tok.code1 s) from rfl]
      simp [rend]

theorem pass4 : ∀ ts, wfTokens ts = true →
    sub4 (rendList rend3 ts) = rendList rend4 ts := by
  intro ts
  induction ts with
  | nil => intro _; exact sub4_nil
  | cons t ts2 ih =>
    intro hwf
    obtain ⟨h1, h2, h3⟩ := wf_head hwf
    rw [rendList_cons, rendList_cons]
    match t with
    | .plain s =>
      have hp := tokOK_plain h1
      rw [show rend3 (Tok.plain s) = s from rfl, show rend4 (Tok.plain s) = s from rfl,
        sub4_append_notick s (fun c hc => (hp.2 c hc).2) _, ih h2]
    | .bold s =>
      have hb := tokOK_bold h1
      have hnt : ∀ c ∈ "<b>".data ++ s ++ "</b>".data, (c == backtick) = false := by
        apply forall_mem_append
        · apply forall_mem_append
          · decide
          · exact fun c hc => (hb.2 c hc).2.1
        · decide
      rw [show rend3 (Tok.bold s) = "<b>".data ++ s ++ "</b>".data from rfl,
        show rend4 (Tok.bold s) = "<b>".data ++ s ++ "</b>".data from rfl,
        sub4_append_notick _ hnt _, ih h2]
    | .ital s =>
      have hi := tokOK_ital h1
      have hnt : ∀ c ∈ "<i>".data ++ s ++ "</i>".data, (c == backtick) = false := by
        apply forall_mem_append
        · apply forall_mem_append
          · decide
          · exact fun c hc => (hi.2 c hc).2.1
        · decide
      rw [show rend3 (Tok.ital s) = "<i>".data ++ s ++ "</i>".data from rfl,
        show rend4 (Tok.ital s) = "<i>".data ++ s ++ "</i>".data from rfl,
        sub4_append_notick _ hnt _, ih h2]
    | .code3 s =>
      have hc3 := tokOK_code3 h1
      have hnt : ∀ c ∈ "<code>".data ++ s ++ "</code>".data, (c == backtick) = false := by
        apply forall_mem_append
        · apply forall_mem_append
          · decide
          · exact fun c hc => (hc3.2 c hc).2
        · decide
      rw [show rend3 (Tok.code3 s) = "<code>".data ++ s ++ "</code>".data from rfl,
        show rend4 (Tok.code3 s) = "<code>".data ++ s ++ "</code>".data from rfl,
        sub4_append_notick _ hnt _, ih h2]
    | .code1 s =>
      have hc1 := tokOK_code1 h1
      have hre : rend3 (Tok.code1 s) ++ rendList rend3 ts2
          = backtick :: (s ++ backtick :: rendList rend3 ts2) := by
        simp [rend3, rend]
      rw [hre, sub4_code1 s hc1.1 (fun c hc => (hc1.2 c hc).2) _, ih h2,
        show rend4 (Tok.code1 s) = "<code>".data ++ s ++ "</code>".data from rfl]
      try simp

theorem forall_mem_append2 {l1 l2 : List Char}
    (h1 : ∀ c ∈ l1, (c == '*') = false ∧ (c == backtick) = false)
    (h2 : ∀ c ∈ l2, (c == '*') = false ∧ (c == backtick) = false) :
    ∀ c ∈ l1 ++ l2, (c == '*') = false ∧ (c == backtick) = false := by
  intro c hc
  rcases List.mem_append.mp hc with hc | hc
  · exact h1 c hc
  · exact h2 c hc

theorem rend4_clean (t : Tok) (h : tokOK t = true) :
    ∀ c ∈ rend4 t, (c == '*') = false ∧ (c == backtick) = false := by
  match t with
  | .plain s => exact (tokOK_plain h).2
  | .bold s =>
    exact forall_mem_append2
      (forall_mem_append2 (by decide) (fun c hc => ⟨((tokOK_bold h).2 c hc).1,
        ((tokOK_bold h).2 c hc).2.1⟩)) (by decide)
  | .ital s =>
    exact forall_mem_append2
      (forall_mem_append2 (by decide) (fun c hc => ⟨((tokOK_ital h).2 c hc).1,
        ((tokOK_ital h).2 c hc).2.1⟩)) (by decide)
  | .code3 s =>
    exact forall_mem_append2
      (forall_mem_append2 (by decide) ((tokOK_code3 h).2)) (by decide)
  | .code1 s =>
    exact forall_mem_append2
      (forall_mem_append2 (by decide) ((tokOK_code1 h).2)) (by decide)

theorem rendList_rend4_clean : ∀ ts, wfTokens ts = true →
    ∀ c ∈ rendList rend4 ts, (c == '*') = false ∧ (c == backtick) = false := by
  intro ts
  induction ts with
  | nil =>
    intro _ c hc
    cases hc
  | cons t ts2 ih =>
    intro hwf c hc
    obtain ⟨h1, h2, _⟩ := wf_head hwf
    rw [rendList_cons] at hc
    rcases List.mem_append.mp hc with hc | hc
    · exact rend4_clean t h1 c hc
    · exact ih h2 c hc

theorem fix_id (l : List Char)
    (hstar : ∀ c ∈ l, (c == '*') = false)
    (htick : ∀ c ∈ l, (c == backtick) = false) :
    fix_telegram_formatting l = l := by
  unfold fix_telegram_formatting
  rw [sub1_id l hstar, sub2_id l hstar false, sub3_id l htick, sub4_id l htick]

/-- C7: the Formatter is idempotent on well-formed markup.  An input built
from plain text and the four recognized patterns (with delimiter-free
contents and no two markup segments adjacent) is converted by one
application into pure HTML containing no asterisk and no backtick, on which
a second application is the identity. -/
theorem C7_formatter_idempotent (ts : List Tok) (h : wfTokens ts = true) :
    fix_telegram_formatting (fix_telegram_formatting (rendList rend ts))
      = fix_telegram_formatting (rendList rend ts) := by
  have h4 : fix_telegram_formatting (rendList rend ts) = rendList rend4 ts := by
    unfold fix_telegram_formatting
    rw [pass1 ts h, pass2 ts h, pass3 ts h, pass4 ts h]
  rw [h4]
  have hc := rendList_rend4_clean ts h
  exact fix_id _ (fun c hcm => (hc c hcm).1) (fun c hcm => (hc c hcm).2)

def c7Toks : List Tok :=
  [.plain "Программа ".data, .bold "ИИ".data, .plain " включает ".data,
   .ital "курс".data, .plain " номер ".data, .code1 "3".data,
   .plain " из плана ".data, .code3 "AI Product".data]

theorem C7_witness :
    wfTokens c7Toks = true ∧
    fix_telegram_formatting (fix_telegram_formatting (rendList rend c7Toks))
      = fix_telegram_formatting (rendList rend c7Toks) :=
  ⟨by decide, C7_formatter_idempotent c7Toks (by decide)⟩

/-- C2: with no secrets module and no environment variables the placeholder
fallbacks are in effect; the claim says construction must then fail and the
issues list must name every missing value.  The code checks the wrong
placeholder strings ("YOUR_TELEGRAM_TOKEN" instead of
"YOUR_TELEGRAM_BOT_TOKEN", and similarly for the two Yandex values), so
validation reports no issues and the constructor succeeds. -/
theorem C2_validation_misses_placeholders :
    botInitSucceeds none (fun _ => none) = true ∧
    (validate_config "YOUR_TELEGRAM_BOT_TOKEN" "YOUR_YANDEX_FOLDER_ID"
      "YOUR_YANDEX_AUTH_TOKEN").2 = [] := by
  constructor <;> decide

end ItmoBot
